import Mathlib

/-!
Verification of the keyfile codec (package keyfile, format tag "KF\x02").

The Go source is shallowly embedded: byte strings are `List Nat` whose
elements are machine bytes (values reduced mod 256 where the code writes
bytes), the crypto-random source is an explicit stream of optional bytes
threaded through the state-passing operations, and the external crypto
primitives (scrypt key derivation and the AES-256-GCM AEAD) are opaque
parameters, since their code is not part of this repository; the claims
that depend on their behaviour take the relevant property (determinism of
the KDF is built into its function type, AEAD open/seal correctness or
nonce-injectivity) as explicit hypotheses.

Go slice expressions `s[a:b]` panic when the bound exceeds the slice
length; `Parse` is therefore embedded with an explicit `panic` outcome so
that its totality can be settled rather than assumed.
-/

deriving instance DecidableEq for Except

namespace Keyfile

/-- The format magic number, `"KF\x02"`. -/
def magic : List Nat := [0x4b, 0x46, 0x02]

/-- `keySaltBytes = 16`, size of the random scrypt salt. -/
def keySaltBytes : Nat := 16

/-- Nonce size of the standard AES-GCM AEAD returned by `cipher.NewGCM`. -/
def gcmNonceSize : Nat := 12

/-- `aesKeyBytes = 32`, the AES-256 key length produced by scrypt. -/
def aesKeyBytes : Nat := 32

/-- A `File` represents a keyfile: key-generation salt, AEAD nonce and the
encrypted data packet. A zero value is ready for use. -/
structure File where
  salt : List Nat
  nonce : List Nat
  data : List Nat
deriving DecidableEq

/-- `New` creates a new empty `File` (the Go zero value). -/
def New : File := ⟨[], [], []⟩

/-- Error values of the package. `ctx msg e` models
`fmt.Errorf("msg: %w", e)`, a wrapper whose `Unwrap` yields `e`. The
sentinels correspond to `ErrBadPacket`, `ErrNoKey`, `ErrBadPassphrase`,
the error returned by a failing `rand.Read`, the authentication error
returned by `gcm.Open`, and the `errors.New` value used by `Random` for a
non-positive size. -/
inductive KFErr where
  | badPacket
  | noKey
  | badPassphrase
  | randFail
  | aeadOpenErr
  | invalidSize
  | ctx : String → KFErr → KFErr
deriving DecidableEq

/-- `errIs e target` models `errors.Is(e, target)` for a sentinel target:
walk the unwrap chain looking for the sentinel (a `fmt.Errorf` wrapper is
a fresh value and never itself equal to a sentinel). -/
def errIs : KFErr → KFErr → Bool
  | .ctx _ inner, target => errIs inner target
  | e, target => e == target

/-- Outcome of a Go function that can also panic (out-of-range slice). -/
inductive POut (α : Type) where
  | ok : α → POut α
  | err : KFErr → POut α
  | panic : POut α
deriving DecidableEq

/-- `Parse` of the binary keyfile packet, following the source line by
line: check the magic prefix, require two length bytes, check
`2+slen > len(data)` then — as written in the source — `2+nlen+nlen >
len(data)`, and finally take the three slices, which in Go panic when
`2+slen+nlen` exceeds the remaining length (the smaller two slices are
in range whenever the last one is). -/
def Parse (input : List Nat) : POut File :=
  if input.take magic.length ≠ magic then
    .err (.ctx "invalid magic" .badPacket)
  else
    let d := input.drop magic.length
    if d.length < 2 then .err (.ctx "truncated packet" .badPacket)
    else
      let slen := d.getD 0 0
      if 2 + slen > d.length then .err (.ctx "invalid salt" .badPacket)
      else
        let nlen := d.getD 1 0
        if 2 + nlen + nlen > d.length then .err (.ctx "invalid nonce" .badPacket)
        else if 2 + slen + nlen > d.length then .panic
        else .ok ⟨(d.drop 2).take slen, (d.drop (2 + slen)).take nlen,
                  d.drop (2 + slen + nlen)⟩

/-- `Encode` serializes a `File`: magic, the two one-byte length fields
(Go's `byte(slen)` truncates mod 256), then salt, nonce and data. -/
def Encode (f : File) : List Nat :=
  magic ++ [f.salt.length % 256, f.nonce.length % 256] ++ f.salt ++ f.nonce ++ f.data

/-- A cryptographic random source: the i-th entropy byte, or `none` when
the source fails at that point. -/
def RNG : Type := Nat → Option Nat

/-- One `rand.Read` of `n` bytes starting at stream position `pos`; the
buffer is filled completely or the call fails. Values are machine bytes,
hence the reduction mod 256. -/
def randRead (g : RNG) (pos n : Nat) : Option (List Nat) :=
  if (List.range n).all (fun i => (g (pos + i)).isSome) then
    some ((List.range n).map (fun i => (g (pos + i)).getD 0 % 256))
  else none

/-- The scrypt key derivation `scrypt.Key(passphrase, salt, 1<<15, 8, 1, 32)`,
kept opaque: a deterministic function of passphrase and salt (spec §4.1).
With the fixed valid parameters scrypt, `aes.NewCipher` (32-byte key) and
`cipher.NewGCM` never return errors, so `keyCipher` can only fail through
`keySalt`. -/
def KDF : Type := String → List Nat → List Nat

/-- The AES-256-GCM AEAD obtained from the derived key, kept opaque:
`seal key nonce plaintext` is `aead.Seal(nil, nonce, plaintext, nil)` and
`Open key nonce ct` is `aead.Open(nil, nonce, ct, nil)`, `none` meaning
the authentication error. -/
structure AEADImpl where
  Seal : List Nat → List Nat → List Nat → List Nat
  Open : List Nat → List Nat → List Nat → Option (List Nat)

/-- `keySalt` returns the key salt, creating it from the random source if
the salt field is empty; state-passing rendition of the mutating Go
method (it assigns `f.salt` only after a successful read). -/
def keySalt (f : File) (g : RNG) (pos : Nat) :
    Except KFErr (List Nat) × File × Nat :=
  if f.salt.length = 0 then
    match randRead g pos keySaltBytes with
    | none => (.error .randFail, f, pos + keySaltBytes)
    | some buf => (.ok buf, { f with salt := buf }, pos + keySaltBytes)
  else (.ok f.salt, f, pos)

/-- `keyCipher` derives the AEAD key for `f` from the passphrase: fetch or
create the salt, then run scrypt. The scrypt/AES/GCM constructor error
paths are dead under the fixed parameters, so the only failure is a
wrapped `keySalt` failure. The AEAD itself is determined by the derived
key, so the model returns the key. -/
def keyCipher (kdf : KDF) (f : File) (passphrase : String) (g : RNG) (pos : Nat) :
    Except KFErr (List Nat) × File × Nat :=
  match keySalt f g pos with
  | (.error e, f1, pos1) => (.error (.ctx "key salt" e), f1, pos1)
  | (.ok salt, f1, pos1) => (.ok (kdf passphrase salt), f1, pos1)

/-- `Get` decrypts and returns the key from `f` using the passphrase:
`ErrNoKey` when salt or nonce is empty, otherwise derive the key and open
the data packet, wrapping failures exactly as the source does. -/
def Get (A : AEADImpl) (kdf : KDF) (f : File) (passphrase : String)
    (g : RNG) (pos : Nat) : Except KFErr (List Nat) × File × Nat :=
  if f.salt.length = 0 || f.nonce.length = 0 then (.error .noKey, f, pos)
  else
    match keyCipher kdf f passphrase g pos with
    | (.error e, f1, pos1) => (.error (.ctx "keyfile init" e), f1, pos1)
    | (.ok key, f1, pos1) =>
      match A.Open key f1.nonce f1.data with
      | none => (.error (.ctx "keyfile verify" .aeadOpenErr), f1, pos1)
      | some dec => (.ok dec, f1, pos1)

/-- `Set` encrypts the secret with the passphrase and stores it in `f`:
reset the whole struct (`*f = File{}`), derive the cipher (which creates a
fresh salt, the old one having just been wiped), allocate a zeroed nonce
buffer, fill it from the random source, and seal. On a nonce-read failure
the zeroed buffer is already assigned to the nonce field. -/
def Set (A : AEADImpl) (kdf : KDF) (_f : File) (passphrase : String)
    (secret : List Nat) (g : RNG) (pos : Nat) :
    Except KFErr Unit × File × Nat :=
  let f0 : File := ⟨[], [], []⟩
  match keyCipher kdf f0 passphrase g pos with
  | (.error e, f1, pos1) => (.error (.ctx "keyfile init" e), f1, pos1)
  | (.ok key, f1, pos1) =>
    let f2 : File := { f1 with nonce := List.replicate gcmNonceSize 0 }
    match randRead g pos1 gcmNonceSize with
    | none => (.error .randFail, f2, pos1 + gcmNonceSize)
    | some nb =>
      let f3 : File := { f2 with nonce := nb }
      (.ok (), { f3 with data := A.Seal key nb secret }, pos1 + gcmNonceSize)

/-- `Random` generates a random secret of `nbytes` bytes, stores it via
`Set`, and returns it; `nbytes <= 0` is an error before anything else. -/
def Random (A : AEADImpl) (kdf : KDF) (f : File) (passphrase : String)
    (nbytes : Int) (g : RNG) (pos : Nat) :
    Except KFErr (List Nat) × File × Nat :=
  if nbytes ≤ 0 then (.error .invalidSize, f, pos)
  else
    match randRead g pos nbytes.toNat with
    | none => (.error .randFail, f, pos + nbytes.toNat)
    | some secret =>
      match Set A kdf f passphrase secret g (pos + nbytes.toNat) with
      | (.error e, f1, pos1) => (.error e, f1, pos1)
      | (.ok _, f1, pos1) => (.ok secret, f1, pos1)

/-! Concrete instantiations of the opaque parameters, used to evaluate the
theorems on closed inputs: a constant key derivation, an AEAD whose
ciphertext is the plaintext (correct: open always recovers), an AEAD
whose ciphertext is the nonce (injective in the nonce) and whose open
always reports an authentication failure, and a few entropy streams. -/

def kdf0 : KDF := fun _ _ => List.replicate aesKeyBytes 0

def aeadId : AEADImpl := ⟨fun _ _ s => s, fun _ _ c => some c⟩

def aeadNonce : AEADImpl := ⟨fun _ n _ => n, fun _ _ _ => none⟩

def gone : RNG := fun _ => some 1

def gtwo : RNG := fun _ => some 2

def gid : RNG := fun i => some i

def gfail : RNG := fun _ => none

/-- The keyfile produced by one `Set` on a fresh container from the
identity AEAD and the all-ones entropy stream. -/
def fC : File := (Set aeadId kdf0 New "p" [1, 2, 3] gone 0).2.1

/-- First of two consecutive `Set` results under the nonce-revealing AEAD
and the identity entropy stream. -/
def fA : File := (Set aeadNonce kdf0 New "p" [1] gid 0).2.1

/-- Second of the two consecutive `Set` results, continuing the stream at
position 28. -/
def fB : File := (Set aeadNonce kdf0 fA "p" [1] gid 28).2.1

/-- The containers reachable through the public operations `New`, `Parse`
(on machine-byte input), `Set` and `Random` (under a fixed AEAD and KDF),
including the states left behind by failed calls. -/
inductive Reachable (A : AEADImpl) (kdf : KDF) : File → Prop where
  | new : Reachable A kdf New
  | parse (b : List Nat) (f : File) (hb : ∀ x ∈ b, x < 256)
      (h : Parse b = .ok f) : Reachable A kdf f
  | set (f : File) (p : String) (s : List Nat) (g : RNG) (pos : Nat)
      (h : Reachable A kdf f) : Reachable A kdf (Set A kdf f p s g pos).2.1
  | rand (f : File) (p : String) (n : Int) (g : RNG) (pos : Nat)
      (h : Reachable A kdf f) : Reachable A kdf (Random A kdf f p n g pos).2.1

/-! Helper lemmas: length of a successful random read, and closed-form
characterizations of `Set` and `Get`. -/

theorem randRead_length {g : RNG} {pos n : Nat} {bs : List Nat}
    (h : randRead g pos n = some bs) : bs.length = n := by
  unfold randRead at h
  split at h
  · simpa using (Option.some.injEq _ _ ▸ h).symm ▸ by simp
  · exact absurd h (by simp)

/-- `Set` in closed form: a fresh salt is always drawn first (the reset
makes the salt empty when `keySalt` runs), then the nonce, then the seal;
the incoming file is irrelevant. -/
theorem Set_eq (A : AEADImpl) (kdf : KDF) (f : File) (p : String)
    (s : List Nat) (g : RNG) (pos : Nat) :
    Set A kdf f p s g pos =
      match randRead g pos keySaltBytes with
      | none => (.error (.ctx "keyfile init" (.ctx "key salt" .randFail)),
                 New, pos + keySaltBytes)
      | some sb =>
        match randRead g (pos + keySaltBytes) gcmNonceSize with
        | none => (.error .randFail,
                   ⟨sb, List.replicate gcmNonceSize 0, []⟩,
                   pos + keySaltBytes + gcmNonceSize)
        | some nb => (.ok (), ⟨sb, nb, A.Seal (kdf p sb) nb s⟩,
                      pos + keySaltBytes + gcmNonceSize) := by
  unfold Set keyCipher keySalt New
  rcases h1 : randRead g pos keySaltBytes with _ | sb
  · simp [h1]
  · rcases h2 : randRead g (pos + keySaltBytes) gcmNonceSize with _ | nb
    · simp [h1, h2]
    · simp [h1, h2]

/-- `Get` in closed form: the no-key guard, then open under the derived
key; the file and the random stream are never modified (the salt is
non-empty past the guard, so `keySalt` does not draw). -/
theorem Get_eq (A : AEADImpl) (kdf : KDF) (f : File) (p : String)
    (g : RNG) (pos : Nat) :
    Get A kdf f p g pos =
      if f.salt.length = 0 || f.nonce.length = 0 then (.error .noKey, f, pos)
      else
        match A.Open (kdf p f.salt) f.nonce f.data with
        | none => (.error (.ctx "keyfile verify" .aeadOpenErr), f, pos)
        | some dec => (.ok dec, f, pos) := by
  by_cases h1 : f.salt = []
  · simp [Get, keyCipher, keySalt, h1]
  · by_cases h2 : f.nonce = []
    · simp [Get, keyCipher, keySalt, h1, h2]
    · have l1 : f.salt.length ≠ 0 := by simpa using h1
      have l2 : f.nonce.length ≠ 0 := by simpa using h2
      simp [Get, keyCipher, keySalt, l1, l2]

/-- Shape of an accepted packet: the input is the magic tag, the two true
field lengths, and the three fields in order; moreover the accepted input
satisfies the source's `2+nlen+nlen ≤ len` bound, recorded here as an
inequality on the field lengths. -/
theorem parse_ok_shape {b : List Nat} {f : File} (h : Parse b = .ok f) :
    b = magic ++ f.salt.length :: f.nonce.length :: (f.salt ++ (f.nonce ++ f.data)) ∧
    f.nonce.length + f.nonce.length ≤
      f.salt.length + (f.nonce.length + f.data.length) := by
  simp only [Parse] at h
  split at h
  · simp at h
  rename_i hc1
  rcases ht : b.drop magic.length with _ | ⟨x, rest⟩
  · rw [ht] at h; simp at h
  rcases rest with _ | ⟨y, t⟩
  · rw [ht] at h; simp at h
  rw [ht] at h
  simp only [List.length_cons, List.getD_cons_zero, List.getD_cons_succ,
    List.drop_succ_cons, List.drop_zero] at h
  split at h
  · simp at h
  rename_i hc2
  split at h
  · simp at h
  rename_i hc3
  split at h
  · simp at h
  rename_i hc4
  split at h
  · simp at h
  rename_i hc5
  have hx : x ≤ t.length := by omega
  have hxy : x + y ≤ t.length := by omega
  have e2 : 2 + x = x + 2 := by omega
  rw [e2] at h
  have e3 : x + 2 + y = (x + y) + 2 := by omega
  rw [e3] at h
  simp only [List.drop_succ_cons, List.drop_zero] at h
  have hf : f = ⟨t.take x, (t.drop x).take y, t.drop (x + y)⟩ := by
    cases h; rfl
  subst hf
  have hsl : (t.take x).length = x := by simp [hx]
  have hnl : ((t.drop x).take y).length = y := by
    simp only [List.length_take, List.length_drop]
    omega
  have hdl : (t.drop (x + y)).length = t.length - (x + y) := by simp
  refine ⟨?_, by rw [hsl, hnl, hdl]; omega⟩
  rw [hsl, hnl]
  have hcat : t.take x ++ ((t.drop x).take y ++ t.drop (x + y)) = t := by
    rw [List.drop_take_append_drop, List.take_append_drop]
  rw [hcat]
  have hbm : b.take magic.length = magic := by
    by_contra hne
    exact hc1 hne
  calc b = b.take magic.length ++ b.drop magic.length :=
        (List.take_append_drop _ _).symm
    _ = magic ++ x :: y :: t := by rw [hbm, ht]

/-- `Parse` inverts `Encode` whenever the two length fields fit in one
byte and the nonce is no longer than salt plus data (the latter makes the
source's `2+nlen+nlen` bound check pass and keeps the final slice in
range). -/
theorem parse_encode (f : File)
    (hs : f.salt.length ≤ 255) (hn : f.nonce.length ≤ 255)
    (hd : f.nonce.length ≤ f.salt.length + f.data.length) :
    Parse (Encode f) = .ok f := by
  obtain ⟨salt, nonce, data⟩ := f
  simp only at hs hn hd
  have hmod_s : salt.length % 256 = salt.length := Nat.mod_eq_of_lt (by omega)
  have hmod_n : nonce.length % 256 = nonce.length := Nat.mod_eq_of_lt (by omega)
  have henc : Encode ⟨salt, nonce, data⟩ =
      magic ++ (salt.length :: nonce.length :: (salt ++ (nonce ++ data))) := by
    simp [Encode, hmod_s, hmod_n]
  rw [henc]
  unfold Parse
  rw [List.take_left, List.drop_left]
  simp only [ne_eq, not_true_eq_false, if_false, List.length_cons,
    List.length_append, List.getD_cons_zero, List.getD_cons_succ]
  rw [if_neg (by omega), if_neg (by omega), if_neg (by omega), if_neg (by omega)]
  have e2 : (2 + salt.length) = salt.length + 2 := by omega
  rw [e2]
  have e3 : salt.length + 2 + nonce.length = (salt.length + nonce.length) + 2 := by
    omega
  rw [e3]
  simp only [List.drop_succ_cons, List.drop_zero]
  rw [List.take_left, List.drop_left]
  rw [← List.append_assoc, List.drop_left' (by simp), List.take_left]

/-- Claim C1: the claim states that Parse rejects every truncation of a
valid packet at the magic/mid-salt/mid-nonce boundary with a
malformed-packet error and never panics. The code instead checks
`2+nlen+nlen > len(data)` where the format requires `2+slen+nlen`, so a
valid packet (salt 16, nonce 12) truncated to 29 bytes — mid-nonce —
passes both bound checks and the final slice `data[2+slen+nlen:]` reads
out of range: a panic, not an error. This theorem evaluates the code at
that failing input (and at the minimal panicking packet
`"KF\x02\x03\x02abcd"`), after checking that the untruncated packet does
parse. -/
theorem c1_parse_truncation_panics :
    Parse (Encode ⟨List.replicate 16 7, List.replicate 12 8, List.replicate 19 9⟩) =
      .ok ⟨List.replicate 16 7, List.replicate 12 8, List.replicate 19 9⟩ ∧
    Parse ((Encode ⟨List.replicate 16 7, List.replicate 12 8,
      List.replicate 19 9⟩).take 29) = .panic ∧
    Parse [0x4b, 0x46, 0x02, 3, 2, 97, 98, 99, 100] = .panic := by decide

/-- Claim C2, counterexample: `Set` on a container whose salt was
established by a previous `Set` call does not leave the salt unchanged —
the second call regenerates it from the random source (here a stream of
twos, while the established salt is all ones). -/
theorem c2_counterexample :
    (Set aeadId kdf0 New "p" [1, 2, 3] gone 0).2.1.salt = List.replicate 16 1 ∧
    (Set aeadId kdf0 (Set aeadId kdf0 New "p" [1, 2, 3] gone 0).2.1
        "p" [1, 2, 3] gtwo 0).2.1.salt ≠
      (Set aeadId kdf0 New "p" [1, 2, 3] gone 0).2.1.salt := by decide

/-- Claim C2, amended: `Set` begins with `*f = File{}`, wiping the salt,
so `keySalt` always finds an empty salt and draws a fresh one: the result
of `Set` is independent of the incoming container, and the stored salt is
always the first `keySaltBytes` bytes drawn from the random source (empty
when that read fails). The salt-reuse branch of `keySalt` is unreachable
from `Set`. -/
theorem c2_salt_regenerated (A : AEADImpl) (kdf : KDF) (f : File)
    (p : String) (s : List Nat) (g : RNG) (pos : Nat) :
    Set A kdf f p s g pos = Set A kdf New p s g pos ∧
    (Set A kdf f p s g pos).2.1.salt = (randRead g pos keySaltBytes).getD [] := by
  refine ⟨rfl, ?_⟩
  rw [Set_eq]
  rcases h1 : randRead g pos keySaltBytes with _ | sb
  · simp [New]
  · rcases h2 : randRead g (pos + keySaltBytes) gcmNonceSize with _ | nb <;> simp

/-- Claim C3: after `Set` under one passphrase, `Get` under a passphrase
whose derived key fails AEAD authentication returns the error
`fmt.Errorf("keyfile verify: %w", err)` wrapping the GCM authentication
error — an error for which `errors.Is(err, ErrBadPassphrase)` is false,
because `ErrBadPassphrase` is declared but never returned anywhere in the
package. The container here is `fA` (built by `Set`), and the AEAD open
fails as it does under a wrong-derived key. -/
theorem c3_get_wrong_passphrase_error :
    (Get aeadNonce kdf0 fA "wrong" gtwo 0).1 =
      .error (.ctx "keyfile verify" .aeadOpenErr) ∧
    errIs (.ctx "keyfile verify" .aeadOpenErr) .badPassphrase = false ∧
    errIs (.ctx "keyfile verify" .aeadOpenErr) .aeadOpenErr = true := by decide

/-- Claim C4: for every passphrase and secret, if `Set` on a fresh
container succeeds then encoding, parsing and getting with the same
passphrase returns exactly the secret, given that the AEAD opens what it
seals (the correctness of AES-GCM, external to this repository). -/
theorem c4_roundtrip (A : AEADImpl) (kdf : KDF) (P : String) (S : List Nat)
    (g g2 : RNG) (pos pos2 : Nat) (f1 : File) (pos1 : Nat)
    (hA : ∀ k n sc, A.Open k n (A.Seal k n sc) = some sc)
    (h : Set A kdf New P S g pos = (.ok (), f1, pos1)) :
    Parse (Encode f1) = .ok f1 ∧ (Get A kdf f1 P g2 pos2).1 = .ok S := by
  rw [Set_eq] at h
  rcases h1 : randRead g pos keySaltBytes with _ | sb <;> rw [h1] at h
  · simp at h
  rcases h2 : randRead g (pos + keySaltBytes) gcmNonceSize with _ | nb <;>
    rw [h2] at h
  · simp at h
  simp only [Prod.mk.injEq] at h
  obtain ⟨-, hfe, -⟩ := h
  subst hfe
  have hsb := randRead_length h1
  have hnb := randRead_length h2
  rw [keySaltBytes] at hsb
  rw [gcmNonceSize] at hnb
  constructor
  · refine parse_encode _ ?_ ?_ ?_ <;> simp [hsb, hnb] <;> omega
  · rw [Get_eq]
    simp [hsb, hnb, hA]

/-- Witness for C4: a concrete correct AEAD, entropy stream, passphrase
and secret. -/
theorem c4_witness :
    Parse (Encode fC) = .ok fC ∧
    (Get aeadId kdf0 fC "p" gtwo 5).1 = .ok [1, 2, 3] :=
  c4_roundtrip aeadId kdf0 "p" [1, 2, 3] gone gtwo 0 5 fC 28
    (fun _ _ _ => rfl) (by decide)

/-- Claim C5: every byte string accepted by `Parse` is reproduced byte
for byte by `Encode` of the parsed container. -/
theorem c5_encode_parse_id (b : List Nat) (f : File)
    (hb : ∀ x ∈ b, x < 256) (h : Parse b = .ok f) :
    Encode f = b := by
  obtain ⟨hshape, -⟩ := parse_ok_shape h
  have hsmem : f.salt.length ∈ b := by rw [hshape]; simp
  have hnmem : f.nonce.length ∈ b := by rw [hshape]; simp
  have hs : f.salt.length % 256 = f.salt.length := Nat.mod_eq_of_lt (hb _ hsmem)
  have hn : f.nonce.length % 256 = f.nonce.length := Nat.mod_eq_of_lt (hb _ hnmem)
  rw [hshape]
  simp [Encode, hs, hn]

/-- Witness for C5 at a concrete accepted packet. -/
theorem c5_witness : Encode ⟨[5], [6], [7]⟩ = [0x4b, 0x46, 0x02, 1, 1, 5, 6, 7] :=
  c5_encode_parse_id [0x4b, 0x46, 0x02, 1, 1, 5, 6, 7] ⟨[5], [6], [7]⟩
    (by decide) (by decide)

/-- Claim C6: `Get` on a container with empty salt or empty nonce — in
particular on `New()` — fails with `ErrNoKey`, leaving the container and
the random stream untouched (no derivation or decryption is attempted),
and that error is not the bad-passphrase error. -/
theorem c6_get_empty_noKey (A : AEADImpl) (kdf : KDF) (f : File) (p : String)
    (g : RNG) (pos : Nat) (h : f.salt = [] ∨ f.nonce = []) :
    Get A kdf f p g pos = (.error .noKey, f, pos) ∧
    errIs .noKey .badPassphrase = false := by
  refine ⟨?_, by decide⟩
  rw [Get_eq]
  rcases h with h | h <;> simp [h]

/-- Witness for C6: the empty container `New()` with an arbitrary
passphrase. -/
theorem c6_witness :
    Get aeadId kdf0 New "anyP" gone 0 = (.error .noKey, New, 0) ∧
    errIs .noKey .badPassphrase = false :=
  c6_get_empty_noKey aeadId kdf0 New "anyP" gone 0 (Or.inl rfl)

/-- Claim C7, counterexample: when the random source fails, `Set` on a
populated container returns an error but the container is not left
unchanged — the initial `*f = File{}` reset already wiped it. -/
theorem c7_counterexample :
    (Set aeadId kdf0 ⟨List.replicate 16 5, List.replicate 12 5, [9, 9]⟩
        "p" [1, 2, 3] gfail 0).1 =
      .error (.ctx "keyfile init" (.ctx "key salt" .randFail)) ∧
    (Set aeadId kdf0 ⟨List.replicate 16 5, List.replicate 12 5, [9, 9]⟩
        "p" [1, 2, 3] gfail 0).2.1 ≠
      ⟨List.replicate 16 5, List.replicate 12 5, [9, 9]⟩ := by decide

/-- Claim C7, amended: if `Set` returns an error the container does not
keep the previous contents and holds no ciphertext at all — it is left in
the reset state, with at most a freshly drawn salt (salt-read failure
leaves it empty) and at most the zero-filled nonce buffer (allocated
before the failing nonce read). -/
theorem c7_set_error_reset (A : AEADImpl) (kdf : KDF) (f : File) (p : String)
    (s : List Nat) (g : RNG) (pos : Nat) (e : KFErr) (f1 : File) (pos1 : Nat)
    (h : Set A kdf f p s g pos = (.error e, f1, pos1)) :
    f1.data = [] ∧
    (f1.nonce = [] ∨ f1.nonce = List.replicate gcmNonceSize 0) ∧
    (f1.salt = [] ∨ randRead g pos keySaltBytes = some f1.salt) := by
  rw [Set_eq] at h
  rcases h1 : randRead g pos keySaltBytes with _ | sb <;> rw [h1] at h
  · simp only [Prod.mk.injEq] at h
    obtain ⟨-, hfe, -⟩ := h
    subst hfe
    simp [New]
  · rcases h2 : randRead g (pos + keySaltBytes) gcmNonceSize with _ | nb <;>
      rw [h2] at h
    · simp only [Prod.mk.injEq] at h
      obtain ⟨-, hfe, -⟩ := h
      subst hfe
      refine ⟨rfl, Or.inr rfl, Or.inr ?_⟩
      simpa using h1
    · simp at h

/-- Witness for C7 (amended) at a failing random source. -/
theorem c7_witness :
    New.data = [] ∧
    (New.nonce = [] ∨ New.nonce = List.replicate gcmNonceSize 0) ∧
    (New.salt = [] ∨ randRead gfail 0 keySaltBytes = some New.salt) :=
  c7_set_error_reset aeadId kdf0 New "p" [1] gfail 0
    (.ctx "keyfile init" (.ctx "key salt" .randFail)) New 16 (by decide)

/-- Claim C8: every successful `Set` stores as nonce exactly the bytes
drawn fresh from the random source after the salt draw; hence two
consecutive successful `Set` calls whose nonce draws differ (independent
randomness) store different nonces, and — provided the AEAD never seals
the same plaintext to the same ciphertext under different nonces, as with
GCM where the nonce shapes the keystream — different ciphertexts. -/
theorem c8_nonce_freshness (A : AEADImpl) (kdf : KDF) (f : File) (p : String)
    (s : List Nat) (g : RNG) (pos pos1 pos2 : Nat) (f1 f2 : File)
    (hinj : ∀ k k' n n' sc, n ≠ n' → A.Seal k n sc ≠ A.Seal k' n' sc)
    (h1 : Set A kdf f p s g pos = (.ok (), f1, pos1))
    (h2 : Set A kdf f1 p s g pos1 = (.ok (), f2, pos2))
    (hrand : randRead g (pos + keySaltBytes) gcmNonceSize ≠
             randRead g (pos1 + keySaltBytes) gcmNonceSize) :
    randRead g (pos + keySaltBytes) gcmNonceSize = some f1.nonce ∧
    f1.nonce ≠ f2.nonce ∧ f1.data ≠ f2.data := by
  rw [Set_eq] at h1 h2
  rcases e1 : randRead g pos keySaltBytes with _ | sb1 <;> rw [e1] at h1
  · simp at h1
  rcases e2 : randRead g (pos + keySaltBytes) gcmNonceSize with _ | nb1 <;>
    rw [e2] at h1
  · simp at h1
  simp only [Prod.mk.injEq] at h1
  obtain ⟨-, hf1, -⟩ := h1
  subst hf1
  rcases e3 : randRead g pos1 keySaltBytes with _ | sb2 <;> rw [e3] at h2
  · simp at h2
  rcases e4 : randRead g (pos1 + keySaltBytes) gcmNonceSize with _ | nb2 <;>
    rw [e4] at h2
  · simp at h2
  simp only [Prod.mk.injEq] at h2
  obtain ⟨-, hf2, -⟩ := h2
  subst hf2
  have hnn : nb1 ≠ nb2 := by
    intro hne
    exact hrand (by rw [e2, e4, hne])
  refine ⟨by simpa using e2, hnn, ?_⟩
  simpa using hinj (kdf p sb1) (kdf p sb2) nb1 nb2 s hnn

/-- Witness for C8: two consecutive `Set` calls on the identity entropy
stream, under the AEAD whose ciphertext reveals the nonce. -/
theorem c8_witness :
    randRead gid (0 + keySaltBytes) gcmNonceSize = some fA.nonce ∧
    fA.nonce ≠ fB.nonce ∧ fA.data ≠ fB.data :=
  c8_nonce_freshness aeadNonce kdf0 New "p" [1] gid 0 28 56 fA fB
    (fun _ _ _ _ _ hne => hne) (by decide) (by decide) (by decide)

/-- Claim C9: `Get` never modifies the container (nor consumes the random
stream), whether it succeeds or fails: the returned state equals the
input state. -/
theorem c9_get_pure (A : AEADImpl) (kdf : KDF) (f : File) (p : String)
    (g : RNG) (pos : Nat) :
    (Get A kdf f p g pos).2.1 = f ∧ (Get A kdf f p g pos).2.2 = pos := by
  rw [Get_eq]
  split
  · exact ⟨rfl, rfl⟩
  · rcases hopen : A.Open (kdf p f.salt) f.nonce f.data with _ | dec <;>
      simp [hopen]

/-- Claim C10: every container reachable through `New`, `Parse`, `Set`
and `Random` has salt and nonce of at most 255 bytes and is reconstructed
exactly by `Parse` after `Encode`; after a successful `Set` or `Random`
the salt is exactly `keySaltBytes = 16` bytes and the nonce exactly
`gcmNonceSize = 12` bytes. -/
theorem c10_reachable_invariant (A : AEADImpl) (kdf : KDF) :
    (∀ f, Reachable A kdf f →
        f.salt.length ≤ 255 ∧ f.nonce.length ≤ 255 ∧
        Parse (Encode f) = .ok f) ∧
    (∀ f p s g pos f1 pos1, Set A kdf f p s g pos = (.ok (), f1, pos1) →
        f1.salt.length = keySaltBytes ∧ f1.nonce.length = gcmNonceSize) ∧
    (∀ f p n g pos sec f1 pos1,
        Random A kdf f p n g pos = (.ok sec, f1, pos1) →
        f1.salt.length = keySaltBytes ∧ f1.nonce.length = gcmNonceSize) := by
  have hset : ∀ (f : File) (p : String) (s : List Nat) (g : RNG) (pos : Nat),
      ((Set A kdf f p s g pos).2.1).salt.length ≤ 255 ∧
      ((Set A kdf f p s g pos).2.1).nonce.length ≤ 255 ∧
      ((Set A kdf f p s g pos).2.1).nonce.length ≤
        ((Set A kdf f p s g pos).2.1).salt.length +
        ((Set A kdf f p s g pos).2.1).data.length := by
    intro f p s g pos
    rw [Set_eq]
    rcases e1 : randRead g pos keySaltBytes with _ | sb
    · simp [New]
    · have hsb := randRead_length e1
      rw [keySaltBytes] at hsb
      rcases e2 : randRead g (pos + keySaltBytes) gcmNonceSize with _ | nb
      · refine ⟨?_, ?_, ?_⟩ <;> simp [hsb, gcmNonceSize] <;> omega
      · have hnb := randRead_length e2
        rw [gcmNonceSize] at hnb
        refine ⟨?_, ?_, ?_⟩ <;> simp [hsb, hnb] <;> omega
  have hsetOk : ∀ (f : File) (p : String) (s : List Nat) (g : RNG)
      (pos : Nat) (f1 : File) (pos1 : Nat),
      Set A kdf f p s g pos = (.ok (), f1, pos1) →
      f1.salt.length = keySaltBytes ∧ f1.nonce.length = gcmNonceSize := by
    intro f p s g pos f1 pos1 h
    rw [Set_eq] at h
    rcases e1 : randRead g pos keySaltBytes with _ | sb <;> rw [e1] at h
    · simp at h
    rcases e2 : randRead g (pos + keySaltBytes) gcmNonceSize with _ | nb <;>
      rw [e2] at h
    · simp at h
    simp only [Prod.mk.injEq] at h
    obtain ⟨-, hfe, -⟩ := h
    subst hfe
    exact ⟨randRead_length e1, randRead_length e2⟩
  have hrandstate : ∀ (f : File) (p : String) (n : Int) (g : RNG) (pos : Nat),
      (Random A kdf f p n g pos).2.1 = f ∨
      ∃ s pos0, (Random A kdf f p n g pos).2.1 = (Set A kdf f p s g pos0).2.1 := by
    intro f p n g pos
    unfold Random
    split
    · exact Or.inl rfl
    rcases er : randRead g pos n.toNat with _ | sec
    · exact Or.inl rfl
    refine Or.inr ⟨sec, pos + n.toNat, ?_⟩
    rcases es : Set A kdf f p sec g (pos + n.toNat) with ⟨r, fs, ps⟩
    rcases r with e | u <;> simp [es]
  have hInv : ∀ f, Reachable A kdf f →
      f.salt.length ≤ 255 ∧ f.nonce.length ≤ 255 ∧
      f.nonce.length ≤ f.salt.length + f.data.length := by
    intro f hr
    induction hr with
    | new => simp [New]
    | parse b f hb hp =>
        obtain ⟨hsh, hle⟩ := parse_ok_shape hp
        have hsmem : f.salt.length ∈ b := by rw [hsh]; simp
        have hnmem : f.nonce.length ∈ b := by rw [hsh]; simp
        have hsb := hb _ hsmem
        have hnb := hb _ hnmem
        exact ⟨by omega, by omega, by omega⟩
    | set f p s g pos h ih => exact hset f p s g pos
    | rand f p n g pos h ih =>
        rcases hrandstate f p n g pos with he | ⟨s, pos0, he⟩ <;> rw [he]
        · exact ih
        · exact hset f p s g pos0
  refine ⟨fun f hr => ?_, hsetOk, ?_⟩
  · obtain ⟨i1, i2, i3⟩ := hInv f hr
    exact ⟨i1, i2, parse_encode f i1 i2 i3⟩
  · intro f p n g pos sec f1 pos1 h
    unfold Random at h
    split at h
    · simp at h
    rcases er : randRead g pos n.toNat with _ | s0 <;> rw [er] at h
    · simp at h
    rcases es : Set A kdf f p s0 g (pos + n.toNat) with ⟨r, fs, ps⟩
    simp only [es] at h
    rcases r with e | u
    · simp at h
    · simp only [Prod.mk.injEq] at h
      obtain ⟨-, hfe, hpe⟩ := h
      subst hfe
      exact hsetOk f p s0 g (pos + n.toNat) fs ps es

/-- Witness for C10: the empty container is reachable and satisfies the
invariant, and the concrete successful `Set` behind `fC` yields the exact
salt and nonce sizes. -/
theorem c10_witness :
    (New.salt.length ≤ 255 ∧ New.nonce.length ≤ 255 ∧
      Parse (Encode New) = .ok New) ∧
    (fC.salt.length = keySaltBytes ∧ fC.nonce.length = gcmNonceSize) := by
  obtain ⟨h1, h2, -⟩ := c10_reachable_invariant aeadId kdf0
  exact ⟨h1 New Reachable.new, h2 New "p" [1, 2, 3] gone 0 fC 28 (by decide)⟩

end Keyfile
